import Mathlib

/-! # conform/conform.go: policy enforcement, pipeline build, script execution

A shallow embedding of `Conform.Enforce` and `Conform.enforce`.

* Pointers are modelled by the values they point to; a `nil` receiver and a
  `nil` entry of `Policies` are not values of the model.  The one pointer
  whose target is written through is the prototype stored in `policyMap`
  (`&conventionalcommit.Conventional{}`): `mapstructure.Decode` writes to it,
  so its target is threaded explicitly as the `conventional` component of
  every run.
* Go `error` values are modelled by their message (`Option String`, `none`
  being `nil`), Go strings by `String` (valid UTF-8).
* The packages `metadata`, `pipeline`, `policy`, `conventionalcommit`,
  `script`, `stage`, `task` and the library `mapstructure` are not part of
  the file; what `conform.go` calls from them is collected in `Deps`, and
  every theorem holds for all `Deps`.  `Compliance`, `Build` and `Execute`
  are taken to be functions of their arguments (and, for `Compliance`, of the
  decoded policy), as the specification has them.
* Every call that the source makes and every write to standard output is
  recorded, in program order, in a trace of `Event`s.
-/

namespace conform

/-! ## Data model -/

/-- Modelled from the spec: `policy.Report`, the compliance report
`{valid, errors}`; `conform.go` reads its field `Errors` and calls `Valid()`. -/
structure Report where
  Errors : List String
deriving DecidableEq, Repr

/-- Modelled from the spec: `Report.Valid()`, which "is true iff `errors` is
empty". -/
def Report.Valid (r : Report) : Bool := r.Errors.isEmpty

/-- What `conform.go` imports: the types of the other packages and the
functions it calls on them. -/
structure Deps where
  -- `metadata.Metadata`
  Metadata : Type
  -- `pipeline.Pipeline`
  Pipeline : Type
  -- `map[string]*stage.Stage`
  Stages : Type
  -- `map[string]*task.Task`
  Tasks : Type
  -- `script.Script`
  Script : Type
  -- the dynamic values a `spec:` key can hold (`interface{}`)
  Spec : Type
  -- `conventionalcommit.Conventional`
  Conventional : Type
  -- `conventionalcommit.Conventional{}`, the zero value.
  zero : Conventional
  -- `mapstructure.Decode(spec, policy)`: the error, and the value the
  -- pointer `policy` refers to afterwards.
  Decode : Spec → Conventional → Option String × Conventional
  -- `policy.Compliance(metadata, policy.Pipeline(p), policy.Tasks(t))`
  Compliance : Conventional → Metadata → Pipeline → Tasks → Report
  -- `(*pipeline.Pipeline).Build(metadata, stages, tasks)`
  Build : Pipeline → Metadata → Stages → Tasks → Option String
  -- `(*script.Script).Execute(metadata)`
  Execute : Script → Metadata → Option String
  -- the tables of `strconv.IsPrint` for runes above U+00FF
  printTable : Char → Bool

/-- PolicyDeclaration allows a user to declare an arbitrary type along with
a spec that will be decoded into the appropriate concrete type. -/
structure PolicyDeclaration (X : Deps) where
  Type_ : String
  Spec : X.Spec

/-- Conform is a struct that conform.yaml gets decoded into. -/
structure Conform (X : Deps) where
  Metadata : X.Metadata
  Policies : List (PolicyDeclaration X)
  Pipeline : X.Pipeline
  Stages : X.Stages
  Tasks : X.Tasks
  Script : X.Script

/-- The prototypes that the values of `policyMap` point to. -/
inductive PolicyRef where
  | conventional
deriving DecidableEq, Repr

/-- The map `policyMap` defines the set of policies allowed within Conform. -/
def policyMap : List (String × PolicyRef) :=
  [("conventionalCommit", PolicyRef.conventional)]

/-! ## Formatting (`fmt`, `strconv`) -/

/-- The function `strconv.IsPrint`: the Latin-1 fast path, then the tables. -/
def IsPrint (tbl : Char → Bool) (r : Char) : Bool :=
  if r.toNat ≤ 0xFF then
    if 0x20 ≤ r.toNat ∧ r.toNat ≤ 0x7E then true
    else if 0xA1 ≤ r.toNat then r.toNat != 0xAD
    else false
  else tbl r

/-- The digit table `lowerhex` of `strconv`. -/
def lowerhex (d : Nat) : Char :=
  "0123456789abcdef".data.getD d '0'

/-- The `k` hexadecimal digits of `n`, most significant first. -/
def hexDigits : Nat → Nat → List Char
  | 0, _ => []
  | k + 1, n => lowerhex (n / 16 ^ k % 16) :: hexDigits k n

/-- The function `strconv.appendEscapedRune` with quote `"`, neither ASCII-only nor
graphic-only.  A `Char` is a valid rune, so the replacement by U+FFFD never
applies. -/
def escapeRune (tbl : Char → Bool) (r : Char) : List Char :=
  if r = '"' ∨ r = '\\' then ['\\', r]
  else if IsPrint tbl r then [r]
  else if r.toNat = 7 then ['\\', 'a']
  else if r.toNat = 8 then ['\\', 'b']
  else if r.toNat = 12 then ['\\', 'f']
  else if r.toNat = 10 then ['\\', 'n']
  else if r.toNat = 13 then ['\\', 'r']
  else if r.toNat = 9 then ['\\', 't']
  else if r.toNat = 11 then ['\\', 'v']
  else if r.toNat < 0x20 ∨ r.toNat = 0x7F then '\\' :: 'x' :: hexDigits 2 r.toNat
  else if r.toNat < 0x10000 then '\\' :: 'u' :: hexDigits 4 r.toNat
  else '\\' :: 'U' :: hexDigits 8 r.toNat

/-- The escaped body of a quoted string, rune by rune. -/
def escapeRunes (tbl : Char → Bool) : List Char → List Char
  | [] => []
  | r :: rs => escapeRune tbl r ++ escapeRunes tbl rs

/-- The verb `%q` on a string: `strconv.Quote`. -/
def quote (tbl : Char → Bool) (s : String) : String :=
  ⟨'"' :: (escapeRunes tbl s.data ++ ['"'])⟩

/-- The message of `fmt.Errorf("Policy %q is not defined", p.Type)`. -/
def notDefined (tbl : Char → Bool) (type : String) : String :=
  "Policy " ++ quote tbl type ++ " is not defined"

/-- The text of `fmt.Printf("Violation of policy %q:\n", p.Type)`. -/
def violationHeader (tbl : Char → Bool) (type : String) : String :=
  "Violation of policy " ++ quote tbl type ++ ":\n"

/-- The text of `fmt.Printf("\tViolation %d: %v\n", i, err)`. -/
def violationLine (i : Nat) (err : String) : String :=
  "\tViolation " ++ Nat.repr i ++ ": " ++ err ++ "\n"

/-- The value of a digit of `lowerhex`. -/
def hexVal (c : Char) : Nat :=
  "0123456789abcdef".data.indexOf c

/-- The number written by hexadecimal digits, most significant first. -/
def readHex (ds : List Char) : Nat :=
  ds.foldl (fun acc d => acc * 16 + hexVal d) 0

/-- Reads one escaped rune back from the front of a quoted body, after
`strconv.UnquoteChar`: the rune and the rest of the text. -/
def unescapeRune : List Char → Option (Char × List Char)
  | [] => none
  | c :: rest =>
    if c ≠ '\\' then some (c, rest)
    else
      match rest with
      | [] => none
      | k :: rest =>
        if k = 'x' then some (Char.ofNat (readHex (rest.take 2)), rest.drop 2)
        else if k = 'u' then some (Char.ofNat (readHex (rest.take 4)), rest.drop 4)
        else if k = 'U' then some (Char.ofNat (readHex (rest.take 8)), rest.drop 8)
        else if k = 'a' then some (Char.ofNat 7, rest)
        else if k = 'b' then some (Char.ofNat 8, rest)
        else if k = 'f' then some (Char.ofNat 12, rest)
        else if k = 'n' then some (Char.ofNat 10, rest)
        else if k = 'r' then some (Char.ofNat 13, rest)
        else if k = 't' then some (Char.ofNat 9, rest)
        else if k = 'v' then some (Char.ofNat 11, rest)
        else some (k, rest)

/-! ## Runs -/

/-- What a run does, in program order. -/
inductive Event (X : Deps) where
  -- `c.enforce(p)` is entered
  | call (p : PolicyDeclaration X)
  -- `policyMap[type]`
  | lookup (type : String)
  -- `mapstructure.Decode(spec, policy)`
  | decode (spec : X.Spec)
  -- `policy.Compliance(...)`
  | compliance
  -- `fmt.Printf` writes `text` to standard output
  | printf (text : String)
  -- `os.Exit(code)`
  | exit (code : Nat)
  -- `c.Pipeline.Build(...)`
  | build
  -- `c.Script.Execute(...)`
  | execute

/-- How a function call ends: it returns an `error`, or the process is
terminated by `os.Exit`. -/
inductive Outcome where
  | returned (err : Option String)
  | exited (code : Nat)
deriving DecidableEq, Repr

/-- A finished call: how it ended, the value of the registered prototype
afterwards, and the events it produced. -/
structure Run (X : Deps) where
  out : Outcome
  conventional : X.Conventional
  trace : List (Event X)

/-- The loop `for i, err := range report.Errors`, from index `i` on. -/
def printViolations {X : Deps} (i : Nat) : List String → List (Event X)
  | [] => []
  | err :: errs => Event.printf (violationLine i err) :: printViolations (i + 1) errs

/-- The method `func (c *Conform) enforce(p *PolicyDeclaration) error`, started with the
registered prototype holding `σ`. -/
def enforce {X : Deps} (c : Conform X) (p : PolicyDeclaration X) (σ : X.Conventional) :
    Run X :=
  match policyMap.lookup p.Type_ with
  | none =>
    ⟨Outcome.returned (some (notDefined X.printTable p.Type_)), σ,
      [Event.call p, Event.lookup p.Type_]⟩
  | some PolicyRef.conventional =>
    match X.Decode p.Spec σ with
    | (some err, σ₁) =>
      ⟨Outcome.returned (some err), σ₁,
        [Event.call p, Event.lookup p.Type_, Event.lookup p.Type_, Event.decode p.Spec]⟩
    | (none, σ₁) =>
      let report := X.Compliance σ₁ c.Metadata c.Pipeline c.Tasks
      if !report.Valid then
        ⟨Outcome.exited 1, σ₁,
          [Event.call p, Event.lookup p.Type_, Event.lookup p.Type_, Event.decode p.Spec,
            Event.compliance, Event.printf (violationHeader X.printTable p.Type_)]
          ++ printViolations 0 report.Errors ++ [Event.exit 1]⟩
      else
        ⟨Outcome.returned none, σ₁,
          [Event.call p, Event.lookup p.Type_, Event.lookup p.Type_, Event.decode p.Spec,
            Event.compliance]⟩

/-- The loop `for _, p := range c.Policies` of `Enforce`: it goes on while
`enforce` returns `nil`. -/
def enforceAll {X : Deps} (c : Conform X) :
    List (PolicyDeclaration X) → X.Conventional → Run X
  | [], σ => ⟨Outcome.returned none, σ, []⟩
  | p :: ps, σ =>
    let r := enforce c p σ
    match r.out with
    | Outcome.returned none =>
      let r₂ := enforceAll c ps r.conventional
      ⟨r₂.out, r₂.conventional, r.trace ++ r₂.trace⟩
    | _ => r

/-- The method `func (c *Conform) Enforce() error`: Enforce enforces all policies
defined in the conform.yaml file. -/
def Enforce {X : Deps} (c : Conform X) (σ : X.Conventional) : Run X :=
  let r := enforceAll c c.Policies σ
  match r.out with
  | Outcome.returned none =>
    match X.Build c.Pipeline c.Metadata c.Stages c.Tasks with
    | some err => ⟨Outcome.returned (some err), r.conventional, r.trace ++ [Event.build]⟩
    | none =>
      ⟨Outcome.returned (X.Execute c.Script c.Metadata), r.conventional,
        r.trace ++ [Event.build, Event.execute]⟩
  | _ => r

/-- The declaration that a `call` event enters, if the event is one. -/
def Event.callee {X : Deps} : Event X → Option (PolicyDeclaration X)
  | Event.call p => some p
  | _ => none

/-- The declarations handed to `enforce` during a trace, in order. -/
def calls {X : Deps} (tr : List (Event X)) : List (PolicyDeclaration X) :=
  tr.filterMap Event.callee

/-- The text that a `printf` event writes, if the event is one. -/
def Event.text {X : Deps} : Event X → Option String
  | Event.printf t => some t
  | _ => none

/-- The writes to standard output during a trace, in order. -/
def output {X : Deps} (tr : List (Event X)) : List String :=
  tr.filterMap Event.text

/-- The report that `enforce` obtains for `p` once the spec is decoded:
`policy.Compliance(c.Metadata, policy.Pipeline(c.Pipeline), policy.Tasks(c.Tasks))`
on the prototype as `mapstructure.Decode(p.Spec, policy)` left it. -/
def reportOf {X : Deps} (c : Conform X) (p : PolicyDeclaration X) (σ : X.Conventional) :
    Report :=
  X.Compliance (X.Decode p.Spec σ).2 c.Metadata c.Pipeline c.Tasks

/-- A declaration passes on the prototype `σ`: its type is a key of
`policyMap`, its spec decodes, and its report is valid. -/
def passes {X : Deps} (c : Conform X) (p : PolicyDeclaration X) (σ : X.Conventional) : Bool :=
  (policyMap.lookup p.Type_).isSome && (X.Decode p.Spec σ).1.isNone && (reportOf c p σ).Valid

/-- Every declaration of the list passes, each on the prototype as the
declarations before it left it. -/
def allPass {X : Deps} (c : Conform X) : List (PolicyDeclaration X) → X.Conventional → Bool
  | [], _ => true
  | p :: ps, σ => passes c p σ && allPass c ps (X.Decode p.Spec σ).2

/-- What the spec says of a run without policies: `Pipeline.Build`, and
`Script.Execute` if the build succeeds. -/
def buildThenExecute {X : Deps} (c : Conform X) (σ : X.Conventional) : Run X :=
  match X.Build c.Pipeline c.Metadata c.Stages c.Tasks with
  | some err => ⟨Outcome.returned (some err), σ, [Event.build]⟩
  | none => ⟨Outcome.returned (X.Execute c.Script c.Metadata), σ, [Event.build, Event.execute]⟩

/-! ## A sample instance of the imported packages

Used to run the definitions on concrete configurations. -/

/-- Sample `spec:` values: a scalar, or a mapping from keys to string lists. -/
inductive SampleSpec where
  | str (s : String)
  | map (fields : List (String × List String))
deriving DecidableEq, Repr

/-- Sample policy struct, with the fields `types` and `scopes`. -/
structure SampleConventional where
  Types : List String
  Scopes : List String
deriving DecidableEq, Repr

/-- Sample metadata: the type and the scope of the commit under test. -/
structure SampleMetadata where
  commitType : String
  commitScope : String
deriving DecidableEq, Repr

/-- Sample decoder, after `mapstructure.Decode` into a struct: an input that
is not a map is an error; a field whose key is in the map is overwritten, a
field whose key is absent from the map is left as it is. -/
def sampleDecode : SampleSpec → SampleConventional → Option String × SampleConventional
  | SampleSpec.str _, σ => (some "'' expected a map, got 'string'", σ)
  | SampleSpec.map fields, σ =>
    (none, ⟨(fields.lookup "types").getD σ.Types, (fields.lookup "scopes").getD σ.Scopes⟩)

/-- Sample compliance check: the commit type and the commit scope must be
among the configured ones; all violations are collected. -/
def sampleCompliance (σ : SampleConventional) (m : SampleMetadata)
    (_pipeline : List String) (_tasks : List String) : Report :=
  ⟨(if m.commitType ∈ σ.Types then [] else ["Invalid type: " ++ m.commitType]) ++
    (if m.commitScope ∈ σ.Scopes then [] else ["Invalid scope: " ++ m.commitScope])⟩

/-- Sample pipeline build: every stage of the pipeline must be in `stages`
and every task of such a stage in `tasks`. -/
def sampleBuild (pipeline : List String) (_m : SampleMetadata)
    (stages : List (String × List String)) (tasks : List String) : Option String :=
  match pipeline.find? (fun s => (stages.lookup s).isNone) with
  | some s => some ("stage not found: " ++ s)
  | none =>
    match (pipeline.flatMap fun s => (stages.lookup s).getD []).find? (fun t => !tasks.contains t) with
    | some t => some ("task not found: " ++ t)
    | none => none

/-- Sample script execution: the steps run in order and the first one that
fails is reported. -/
def sampleExecute (script : List (String × Bool)) (_m : SampleMetadata) : Option String :=
  match script.find? (fun step => !step.2) with
  | some step => some ("step failed: " ++ step.1)
  | none => none

/-- The sample instance. -/
@[reducible] def sample : Deps where
  Metadata := SampleMetadata
  Pipeline := List String
  Stages := List (String × List String)
  Tasks := List String
  Script := List (String × Bool)
  Spec := SampleSpec
  Conventional := SampleConventional
  zero := ⟨[], []⟩
  Decode := sampleDecode
  Compliance := sampleCompliance
  Build := sampleBuild
  Execute := sampleExecute
  printTable := fun _ => false

/-- A sample configuration around a list of policy declarations: a commit of
type `feat` and scope `core`, a pipeline of one stage with one task, and a
script of two steps that succeed. -/
def sampleConform (policies : List (PolicyDeclaration sample)) : Conform sample where
  Metadata := ⟨"feat", "core"⟩
  Policies := policies
  Pipeline := ["build"]
  Stages := [("build", ["compile"])]
  Tasks := ["compile"]
  Script := [("make", true), ("make test", true)]

/-- A declaration of the registered type with the given fields. -/
def sampleDecl (fields : List (String × List String)) : PolicyDeclaration sample :=
  ⟨"conventionalCommit", SampleSpec.map fields⟩

/-- A second sample configuration: the metadata, pipeline and tasks of
`sampleConform`, with other policies, other stages and a script that fails. -/
def sampleOther : Conform sample where
  Metadata := ⟨"feat", "core"⟩
  Policies := [sampleDecl [], ⟨"version", SampleSpec.str "1.0"⟩]
  Pipeline := ["build"]
  Stages := []
  Tasks := ["compile"]
  Script := [("deploy", false)]

/-! ## Theorems -/

/-! ### Quoting is injective -/

theorem hexVal_lowerhex (d : Nat) (h : d < 16) : hexVal (lowerhex d) = d := by
  interval_cases d <;> rfl

theorem hexDigits_length (k n : Nat) : (hexDigits k n).length = k := by
  induction k with
  | zero => rfl
  | succ k ih => simp [hexDigits, ih]

theorem foldl_hexDigits (k n acc : Nat) :
    (hexDigits k n).foldl (fun a d => a * 16 + hexVal d) acc = acc * 16 ^ k + n % 16 ^ k := by
  induction k generalizing acc with
  | zero => simp [hexDigits, Nat.mod_one]
  | succ k ih =>
    simp only [hexDigits, List.foldl_cons]
    rw [ih, hexVal_lowerhex _ (Nat.mod_lt _ (by norm_num)), Nat.mod_pow_succ]
    ring

theorem readHex_hexDigits (k n : Nat) (h : n < 16 ^ k) (s : List Char) :
    readHex ((hexDigits k n ++ s).take k) = n ∧ (hexDigits k n ++ s).drop k = s := by
  have hl := hexDigits_length k n
  constructor
  · rw [List.take_append_of_le_length (by omega), List.take_of_length_le (by omega)]
    unfold readHex
    rw [foldl_hexDigits, Nat.mod_eq_of_lt h]
    simp
  · rw [List.drop_append_of_le_length (by omega), List.drop_of_length_le (by omega)]
    simp

theorem char_toNat_lt (r : Char) : r.toNat < 16 ^ 8 := by
  have := r.val.val.isLt
  simpa [Char.toNat, UInt32.toNat, UInt32.size] using this

/-- A type is registered when it is a key of `policyMap`. -/
theorem lookup_none_iff (t : String) :
    policyMap.lookup t = none ↔ t ≠ "conventionalCommit" := by
  unfold policyMap
  by_cases h : t = "conventionalCommit"
  · subst h; simp [List.lookup]
  · have hb : (t == "conventionalCommit") = false := by simpa using h
    simp [List.lookup, hb, h]

theorem lookup_some_iff (t : String) :
    policyMap.lookup t = some PolicyRef.conventional ↔ t = "conventionalCommit" := by
  unfold policyMap
  by_cases h : t = "conventionalCommit"
  · subst h; simp [List.lookup]
  · have hb : (t == "conventionalCommit") = false := by simpa using h
    simp [List.lookup, hb, h]

theorem enforce_unknown {X : Deps} (c : Conform X) (p : PolicyDeclaration X)
    (σ : X.Conventional) (h : policyMap.lookup p.Type_ = none) :
    enforce c p σ = ⟨Outcome.returned (some (notDefined X.printTable p.Type_)), σ,
      [Event.call p, Event.lookup p.Type_]⟩ := by
  simp [enforce, h]

theorem enforce_decode_error {X : Deps} (c : Conform X) (p : PolicyDeclaration X)
    (σ : X.Conventional) (err : String)
    (h : policyMap.lookup p.Type_ = some PolicyRef.conventional)
    (hd : (X.Decode p.Spec σ).1 = some err) :
    enforce c p σ = ⟨Outcome.returned (some err), (X.Decode p.Spec σ).2,
      [Event.call p, Event.lookup p.Type_, Event.lookup p.Type_, Event.decode p.Spec]⟩ := by
  rcases hx : X.Decode p.Spec σ with ⟨e, σ₁⟩
  rw [hx] at hd
  simp only at hd
  subst hd
  simp [enforce, h, hx]

theorem enforce_invalid {X : Deps} (c : Conform X) (p : PolicyDeclaration X)
    (σ : X.Conventional)
    (h : policyMap.lookup p.Type_ = some PolicyRef.conventional)
    (hd : (X.Decode p.Spec σ).1 = none)
    (hv : (X.Compliance (X.Decode p.Spec σ).2 c.Metadata c.Pipeline c.Tasks).Valid = false) :
    enforce c p σ = ⟨Outcome.exited 1, (X.Decode p.Spec σ).2,
      [Event.call p, Event.lookup p.Type_, Event.lookup p.Type_, Event.decode p.Spec,
        Event.compliance, Event.printf (violationHeader X.printTable p.Type_)]
      ++ printViolations 0
          (X.Compliance (X.Decode p.Spec σ).2 c.Metadata c.Pipeline c.Tasks).Errors
      ++ [Event.exit 1]⟩ := by
  rcases hx : X.Decode p.Spec σ with ⟨e, σ₁⟩
  rw [hx] at hd hv
  simp only at hd hv
  subst hd
  simp [enforce, h, hx, hv]

theorem enforce_valid {X : Deps} (c : Conform X) (p : PolicyDeclaration X)
    (σ : X.Conventional)
    (h : policyMap.lookup p.Type_ = some PolicyRef.conventional)
    (hd : (X.Decode p.Spec σ).1 = none)
    (hv : (X.Compliance (X.Decode p.Spec σ).2 c.Metadata c.Pipeline c.Tasks).Valid = true) :
    enforce c p σ = ⟨Outcome.returned none, (X.Decode p.Spec σ).2,
      [Event.call p, Event.lookup p.Type_, Event.lookup p.Type_, Event.decode p.Spec,
        Event.compliance]⟩ := by
  rcases hx : X.Decode p.Spec σ with ⟨e, σ₁⟩
  rw [hx] at hd hv
  simp only at hd hv
  subst hd
  simp [enforce, h, hx, hv]

theorem unescapeRune_plain (c : Char) (h : c ≠ '\\') (s : List Char) :
    unescapeRune (c :: s) = some (c, s) := by
  simp [unescapeRune, h]

theorem unescapeRune_same (c : Char) (h : c = '"' ∨ c = '\\') (s : List Char) :
    unescapeRune ('\\' :: c :: s) = some (c, s) := by
  rcases h with rfl | rfl <;> rfl

theorem unescapeRune_hex2 (ds : List Char) :
    unescapeRune ('\\' :: 'x' :: ds) = some (Char.ofNat (readHex (ds.take 2)), ds.drop 2) :=
  rfl

theorem unescapeRune_hex4 (ds : List Char) :
    unescapeRune ('\\' :: 'u' :: ds) = some (Char.ofNat (readHex (ds.take 4)), ds.drop 4) :=
  rfl

theorem unescapeRune_hex8 (ds : List Char) :
    unescapeRune ('\\' :: 'U' :: ds) = some (Char.ofNat (readHex (ds.take 8)), ds.drop 8) :=
  rfl

theorem unescapeRune_escapeRune (tbl : Char → Bool) (r : Char) (s : List Char) :
    unescapeRune (escapeRune tbl r ++ s) = some (r, s) := by
  have hr : ∀ n : Nat, r.toNat = n → Char.ofNat n = r := by
    intro n hn
    rw [← hn, Char.ofNat_toNat]
  unfold escapeRune
  by_cases h1 : r = '"' ∨ r = '\\'
  · rw [if_pos h1]; exact unescapeRune_same r h1 s
  rw [if_neg h1]
  by_cases h2 : IsPrint tbl r = true
  · rw [if_pos h2]; exact unescapeRune_plain r (fun h => h1 (Or.inr h)) s
  rw [if_neg h2]
  by_cases h3 : r.toNat = 7
  · rw [if_pos h3, ← hr 7 h3]; rfl
  rw [if_neg h3]
  by_cases h4 : r.toNat = 8
  · rw [if_pos h4, ← hr 8 h4]; rfl
  rw [if_neg h4]
  by_cases h5 : r.toNat = 12
  · rw [if_pos h5, ← hr 12 h5]; rfl
  rw [if_neg h5]
  by_cases h6 : r.toNat = 10
  · rw [if_pos h6, ← hr 10 h6]; rfl
  rw [if_neg h6]
  by_cases h7 : r.toNat = 13
  · rw [if_pos h7, ← hr 13 h7]; rfl
  rw [if_neg h7]
  by_cases h8 : r.toNat = 9
  · rw [if_pos h8, ← hr 9 h8]; rfl
  rw [if_neg h8]
  by_cases h9 : r.toNat = 11
  · rw [if_pos h9, ← hr 11 h9]; rfl
  rw [if_neg h9]
  by_cases h10 : r.toNat < 0x20 ∨ r.toNat = 0x7F
  · obtain ⟨a, b⟩ := readHex_hexDigits 2 r.toNat (by omega) s
    rw [if_pos h10, List.cons_append, List.cons_append, unescapeRune_hex2, a, b,
      Char.ofNat_toNat]
  rw [if_neg h10]
  by_cases h11 : r.toNat < 0x10000
  · obtain ⟨a, b⟩ := readHex_hexDigits 4 r.toNat (by omega) s
    rw [if_pos h11, List.cons_append, List.cons_append, unescapeRune_hex4, a, b,
      Char.ofNat_toNat]
  · obtain ⟨a, b⟩ := readHex_hexDigits 8 r.toNat (char_toNat_lt r) s
    rw [if_neg h11, List.cons_append, List.cons_append, unescapeRune_hex8, a, b,
      Char.ofNat_toNat]

theorem escapeRunes_injective (tbl : Char → Bool) (a b : List Char)
    (h : escapeRunes tbl a = escapeRunes tbl b) : a = b := by
  induction a generalizing b with
  | nil =>
    cases b with
    | nil => rfl
    | cons y ys =>
      have h1 := unescapeRune_escapeRune tbl y (escapeRunes tbl ys)
      simp only [escapeRunes] at h
      rw [← h] at h1
      simp [unescapeRune] at h1
  | cons x xs ih =>
    cases b with
    | nil =>
      have h1 := unescapeRune_escapeRune tbl x (escapeRunes tbl xs)
      simp only [escapeRunes] at h
      rw [h] at h1
      simp [unescapeRune] at h1
    | cons y ys =>
      have h1 := unescapeRune_escapeRune tbl x (escapeRunes tbl xs)
      have h2 := unescapeRune_escapeRune tbl y (escapeRunes tbl ys)
      simp only [escapeRunes] at h
      rw [h, h2] at h1
      simp only [Option.some.injEq, Prod.mk.injEq] at h1
      rw [h1.1, ih ys h1.2.symm]

theorem quote_injective (tbl : Char → Bool) (s t : String) (h : quote tbl s = quote tbl t) :
    s = t := by
  unfold quote at h
  have h1 : escapeRunes tbl s.data ++ ['"'] = escapeRunes tbl t.data ++ ['"'] := by
    simpa using congrArg String.data h
  have h2 := escapeRunes_injective tbl _ _ (List.append_cancel_right h1)
  exact String.ext h2

theorem notDefined_injective (tbl : Char → Bool) (s t : String)
    (h : notDefined tbl s = notDefined tbl t) : s = t := by
  unfold notDefined at h
  have h1 := congrArg String.data h
  simp only [String.data_append] at h1
  have h2 := List.append_cancel_left (List.append_cancel_right h1)
  exact quote_injective tbl s t (String.ext h2)

/-! ### Line breaks in the formatted text -/

theorem lowerhex_ne_newline (d : Nat) : lowerhex d ≠ '\n' := by
  by_cases h : d < 16
  · interval_cases d <;> decide
  · unfold lowerhex
    rw [List.getD_eq_default _ _ (by simp only [List.length_cons, List.length_nil]; omega)]
    decide

theorem hexDigits_no_newline (k n : Nat) : '\n' ∉ hexDigits k n := by
  induction k with
  | zero => simp [hexDigits]
  | succ k ih => simp [hexDigits, ih, (lowerhex_ne_newline _).symm]

theorem escapeRune_no_newline (tbl : Char → Bool) (r : Char) : '\n' ∉ escapeRune tbl r := by
  unfold escapeRune
  by_cases h1 : r = '"' ∨ r = '\\'
  · rw [if_pos h1]; rcases h1 with rfl | rfl <;> decide
  rw [if_neg h1]
  by_cases h2 : IsPrint tbl r = true
  · rw [if_pos h2]
    intro hm
    rw [List.mem_singleton] at hm
    subst hm
    revert h2
    simp [IsPrint]
  rw [if_neg h2]
  have hx := hexDigits_no_newline
  repeat' split
  all_goals first
    | decide
    | (intro hm
       simp only [List.mem_cons] at hm
       rcases hm with hm | hm | hm
       · exact absurd hm (by decide)
       · exact absurd hm (by decide)
       · exact hx _ _ hm)

theorem escapeRunes_no_newline (tbl : Char → Bool) (rs : List Char) :
    '\n' ∉ escapeRunes tbl rs := by
  induction rs with
  | nil => simp [escapeRunes]
  | cons r rs ih => simp [escapeRunes, escapeRune_no_newline tbl r, ih]

theorem quote_no_newline (tbl : Char → Bool) (s : String) : '\n' ∉ (quote tbl s).data := by
  have h := escapeRunes_no_newline tbl s.data
  simp [quote, h]

theorem toDigitsCore_no_newline (fuel n : Nat) (ds : List Char) (h : '\n' ∉ ds) :
    '\n' ∉ Nat.toDigitsCore 10 fuel n ds := by
  induction fuel generalizing n ds with
  | zero => simpa [Nat.toDigitsCore] using h
  | succ fuel ih =>
    have hd : '\n' ≠ Nat.digitChar (n % 10) := by
      have hlt : n % 10 < 10 := Nat.mod_lt _ (by norm_num)
      generalize n % 10 = m at hlt
      interval_cases m <;> decide
    have hc : '\n' ∉ Nat.digitChar (n % 10) :: ds := by
      simp [hd, h]
    unfold Nat.toDigitsCore
    dsimp only
    split
    · exact hc
    · exact ih _ _ hc

theorem repr_no_newline (i : Nat) : '\n' ∉ (Nat.repr i).data := by
  have h := toDigitsCore_no_newline (i + 1) i [] (by simp)
  simpa [Nat.repr, Nat.toDigits, List.asString] using h

/-! ### The loop over the declarations -/

theorem enforceAll_cons_pass {X : Deps} (c : Conform X) (p : PolicyDeclaration X)
    (ps : List (PolicyDeclaration X)) (σ : X.Conventional)
    (h : (enforce c p σ).out = Outcome.returned none) :
    enforceAll c (p :: ps) σ =
      ⟨(enforceAll c ps (enforce c p σ).conventional).out,
        (enforceAll c ps (enforce c p σ).conventional).conventional,
        (enforce c p σ).trace ++ (enforceAll c ps (enforce c p σ).conventional).trace⟩ := by
  simp [enforceAll, h]

theorem enforceAll_cons_stop {X : Deps} (c : Conform X) (p : PolicyDeclaration X)
    (ps : List (PolicyDeclaration X)) (σ : X.Conventional)
    (h : (enforce c p σ).out ≠ Outcome.returned none) :
    enforceAll c (p :: ps) σ = enforce c p σ := by
  rw [enforceAll]
  split
  · next h' => exact absurd h' h
  · rfl

theorem enforceAll_append {X : Deps} (c : Conform X)
    (pre rest : List (PolicyDeclaration X)) (σ : X.Conventional)
    (h : (enforceAll c pre σ).out = Outcome.returned none) :
    enforceAll c (pre ++ rest) σ =
      ⟨(enforceAll c rest (enforceAll c pre σ).conventional).out,
        (enforceAll c rest (enforceAll c pre σ).conventional).conventional,
        (enforceAll c pre σ).trace ++
          (enforceAll c rest (enforceAll c pre σ).conventional).trace⟩ := by
  induction pre generalizing σ with
  | nil => simp [enforceAll]
  | cons q qs ih =>
    by_cases hq : (enforce c q σ).out = Outcome.returned none
    · rw [enforceAll_cons_pass c q qs σ hq] at h ⊢
      rw [List.cons_append, enforceAll_cons_pass c q (qs ++ rest) σ hq]
      simp only at h
      rw [ih _ h]
      simp [List.append_assoc]
    · rw [enforceAll_cons_stop c q qs σ hq] at h
      exact absurd h hq

theorem enforce_out_cases {X : Deps} (c : Conform X) (p : PolicyDeclaration X)
    (σ : X.Conventional) :
    (enforce c p σ).out = Outcome.returned none ∨
      (∃ err, (enforce c p σ).out = Outcome.returned (some err)) ∨
      (enforce c p σ).out = Outcome.exited 1 := by
  unfold enforce
  split
  · exact Or.inr (Or.inl ⟨_, rfl⟩)
  · split
    · exact Or.inr (Or.inl ⟨_, rfl⟩)
    · dsimp only
      split
      · exact Or.inr (Or.inr rfl)
      · exact Or.inl rfl

theorem enforce_calls {X : Deps} (c : Conform X) (p : PolicyDeclaration X)
    (σ : X.Conventional) : calls (enforce c p σ).trace = [p] := by
  have hv : ∀ (i : Nat) (errs : List String),
      List.filterMap Event.callee (printViolations i errs : List (Event X)) = [] := by
    intro i errs
    induction errs generalizing i with
    | nil => rfl
    | cons e es ih => simp [printViolations, Event.callee, ih (i + 1)]
  unfold enforce
  split
  · simp [calls, Event.callee]
  · split
    · simp [calls, Event.callee]
    · dsimp only
      split
      · simp [calls, Event.callee, List.filterMap_append, hv]
      · simp [calls, Event.callee]

theorem enforce_no_stage {X : Deps} (c : Conform X) (p : PolicyDeclaration X)
    (σ : X.Conventional) :
    Event.build ∉ (enforce c p σ).trace ∧ Event.execute ∉ (enforce c p σ).trace := by
  have hv : ∀ (i : Nat) (errs : List String),
      Event.build ∉ (printViolations i errs : List (Event X)) ∧
        Event.execute ∉ (printViolations i errs : List (Event X)) := by
    intro i errs
    induction errs generalizing i with
    | nil => simp [printViolations]
    | cons e es ih => simp [printViolations, ih (i + 1)]
  unfold enforce
  split
  · simp
  · split
    · simp
    · dsimp only
      split
      · simp [(hv _ _).1, (hv _ _).2]
      · simp

theorem enforceAll_no_stage {X : Deps} (c : Conform X) (ps : List (PolicyDeclaration X))
    (σ : X.Conventional) :
    Event.build ∉ (enforceAll c ps σ).trace ∧ Event.execute ∉ (enforceAll c ps σ).trace := by
  induction ps generalizing σ with
  | nil => simp [enforceAll]
  | cons q qs ih =>
    by_cases hq : (enforce c q σ).out = Outcome.returned none
    · rw [enforceAll_cons_pass c q qs σ hq]
      have h1 := enforce_no_stage c q σ
      have h2 := ih (enforce c q σ).conventional
      simp [h1.1, h1.2, h2.1, h2.2]
    · rw [enforceAll_cons_stop c q qs σ hq]
      exact enforce_no_stage c q σ

theorem enforceAll_calls_pass {X : Deps} (c : Conform X) (ps : List (PolicyDeclaration X))
    (σ : X.Conventional) (h : (enforceAll c ps σ).out = Outcome.returned none) :
    calls (enforceAll c ps σ).trace = ps := by
  induction ps generalizing σ with
  | nil => simp [enforceAll, calls]
  | cons q qs ih =>
    by_cases hq : (enforce c q σ).out = Outcome.returned none
    · rw [enforceAll_cons_pass c q qs σ hq] at h ⊢
      simp only at h
      have h1 := enforce_calls c q σ
      have h2 := ih _ h
      simp only [calls] at h1 h2 ⊢
      simp [List.filterMap_append, h1, h2]
    · rw [enforceAll_cons_stop c q qs σ hq] at h
      exact absurd h hq

/-- When the loop stops at `p`, `Enforce` ends as `enforce` did on `p`. -/
theorem Enforce_stop {X : Deps} (c : Conform X) (σ : X.Conventional)
    (pre post : List (PolicyDeclaration X)) (p : PolicyDeclaration X)
    (hc : c.Policies = pre ++ p :: post)
    (hpre : (enforceAll c pre σ).out = Outcome.returned none)
    (hp : (enforce c p (enforceAll c pre σ).conventional).out ≠ Outcome.returned none) :
    Enforce c σ =
      ⟨(enforce c p (enforceAll c pre σ).conventional).out,
        (enforce c p (enforceAll c pre σ).conventional).conventional,
        (enforceAll c pre σ).trace ++
          (enforce c p (enforceAll c pre σ).conventional).trace⟩ := by
  unfold Enforce
  rw [hc, enforceAll_append c pre (p :: post) σ hpre, enforceAll_cons_stop c p post _ hp]
  dsimp only
  split
  · next h => exact absurd h hp
  · rfl

/-! ### Output -/

theorem output_printViolations {X : Deps} (i : Nat) (errs : List String) :
    output (printViolations i errs : List (Event X)) =
      (errs.enumFrom i).map (fun ie => violationLine ie.1 ie.2) := by
  induction errs generalizing i with
  | nil => rfl
  | cons e es ih =>
    have := ih (i + 1)
    simp only [output] at this
    simp [printViolations, output, Event.text, List.enumFrom, this]

theorem enforce_pass_quiet {X : Deps} (c : Conform X) (p : PolicyDeclaration X)
    (σ : X.Conventional) (h : (enforce c p σ).out = Outcome.returned none) :
    output (enforce c p σ).trace = [] ∧ ∀ n, Event.exit n ∉ (enforce c p σ).trace := by
  unfold enforce at h ⊢
  split at h
  · simp at h
  · split at h
    · simp at h
    · dsimp only at h ⊢
      split at h
      · simp at h
      · next hv => simp [hv, output, Event.text]

theorem enforceAll_pass_quiet {X : Deps} (c : Conform X) (ps : List (PolicyDeclaration X))
    (σ : X.Conventional) (h : (enforceAll c ps σ).out = Outcome.returned none) :
    output (enforceAll c ps σ).trace = [] ∧ ∀ n, Event.exit n ∉ (enforceAll c ps σ).trace := by
  induction ps generalizing σ with
  | nil => simp [enforceAll, output]
  | cons q qs ih =>
    by_cases hq : (enforce c q σ).out = Outcome.returned none
    · rw [enforceAll_cons_pass c q qs σ hq] at h ⊢
      simp only at h
      have h1 := enforce_pass_quiet c q σ hq
      have h2 := ih _ h
      simp only [output] at h1 h2 ⊢
      simp [List.filterMap_append, h1.1, h1.2, h2.1, h2.2]
    · rw [enforceAll_cons_stop c q qs σ hq] at h
      exact absurd h hq

/-! ### The claims -/

/-- C1: when the declarations before `p` pass and the type of `p` is not a key
of `policyMap`, `Enforce` returns the error `Policy "<type>" is not defined`,
whose message determines the declared type exactly; the run ends with the
entry into `enforce` for `p` and the failed lookup, so nothing is decoded or
evaluated for `p`, no later declaration is entered, and neither
`Pipeline.Build` nor `Script.Execute` is called. -/
theorem unknown_policy_fails {X : Deps} (c : Conform X) (σ : X.Conventional)
    (pre post : List (PolicyDeclaration X)) (p : PolicyDeclaration X)
    (hc : c.Policies = pre ++ p :: post)
    (hpre : (enforceAll c pre σ).out = Outcome.returned none)
    (hp : policyMap.lookup p.Type_ = none) :
    Enforce c σ =
        ⟨Outcome.returned (some ("Policy " ++ quote X.printTable p.Type_ ++ " is not defined")),
          (enforceAll c pre σ).conventional,
          (enforceAll c pre σ).trace ++ [Event.call p, Event.lookup p.Type_]⟩ ∧
      (∀ t : String,
        "Policy " ++ quote X.printTable t ++ " is not defined" =
          "Policy " ++ quote X.printTable p.Type_ ++ " is not defined" → t = p.Type_) ∧
      calls (Enforce c σ).trace = pre ++ [p] ∧
      Event.build ∉ (Enforce c σ).trace ∧ Event.execute ∉ (Enforce c σ).trace := by
  have hu := enforce_unknown c p (enforceAll c pre σ).conventional hp
  have hs := Enforce_stop c σ pre post p hc hpre (by rw [hu]; simp)
  rw [hu] at hs
  have hcalls := enforceAll_calls_pass c pre σ hpre
  have hst := enforceAll_no_stage c pre σ
  simp only [calls] at hcalls
  refine ⟨hs, fun t ht => notDefined_injective X.printTable t p.Type_ ht, ?_, ?_, ?_⟩
  · rw [hs]; simp [calls, List.filterMap_append, hcalls, Event.callee]
  · rw [hs]; simp [hst.1]
  · rw [hs]; simp [hst.2]

/-- Witness of C1: after a declaration that passes, the type `version` is not
registered. -/
theorem unknown_policy_fails_witness :
    (Enforce (sampleConform [sampleDecl [("types", ["feat"]), ("scopes", ["core"])],
        ⟨"version", SampleSpec.map []⟩, sampleDecl []]) sample.zero).out =
      Outcome.returned (some "Policy \"version\" is not defined") := by
  rw [(unknown_policy_fails
    (sampleConform [sampleDecl [("types", ["feat"]), ("scopes", ["core"])],
        ⟨"version", SampleSpec.map []⟩, sampleDecl []]) sample.zero
    [sampleDecl [("types", ["feat"]), ("scopes", ["core"])]] [sampleDecl []]
    ⟨"version", SampleSpec.map []⟩ rfl (by decide) (by decide)).1]
  decide

theorem enum_map_getElem? (errs : List String) (f : Nat × String → String) (i : Nat)
    (h : i < errs.length) :
    (errs.enum.map f)[i]? = some (f (i, errs[i])) := by
  rw [List.getElem?_map, List.getElem?_enum, List.getElem?_eq_getElem h]
  rfl

/-- C2: when the declarations before `p` pass and the report for `p` is
invalid with errors `e₀ … e_{N-1}`, the run writes the header and then exactly
`N` violation lines, the `i`-th made from `i` and `eᵢ`, and ends in
`os.Exit(1)`; `p` is the last declaration entered, and neither
`Pipeline.Build` nor `Script.Execute` is called. -/
theorem invalid_report_stops {X : Deps} (c : Conform X) (σ : X.Conventional)
    (pre post : List (PolicyDeclaration X)) (p : PolicyDeclaration X)
    (hc : c.Policies = pre ++ p :: post)
    (hpre : (enforceAll c pre σ).out = Outcome.returned none)
    (hp : policyMap.lookup p.Type_ = some PolicyRef.conventional)
    (hd : (X.Decode p.Spec (enforceAll c pre σ).conventional).1 = none)
    (hv : (reportOf c p (enforceAll c pre σ).conventional).Valid = false) :
    (Enforce c σ).out = Outcome.exited 1 ∧
      (Enforce c σ).trace =
        (enforceAll c pre σ).trace ++
          ([Event.call p, Event.lookup p.Type_, Event.lookup p.Type_, Event.decode p.Spec,
              Event.compliance, Event.printf (violationHeader X.printTable p.Type_)] ++
            printViolations 0 (reportOf c p (enforceAll c pre σ).conventional).Errors ++
            [Event.exit 1]) ∧
      output (Enforce c σ).trace =
        violationHeader X.printTable p.Type_ ::
          (reportOf c p (enforceAll c pre σ).conventional).Errors.enum.map
            (fun ie => violationLine ie.1 ie.2) ∧
      (output (Enforce c σ).trace).length =
        (reportOf c p (enforceAll c pre σ).conventional).Errors.length + 1 ∧
      (∀ (i : Nat) (hi : i < (reportOf c p (enforceAll c pre σ).conventional).Errors.length),
        (output (Enforce c σ).trace)[i + 1]? =
          some (violationLine i
            ((reportOf c p (enforceAll c pre σ).conventional).Errors.get ⟨i, hi⟩))) ∧
      calls (Enforce c σ).trace = pre ++ [p] ∧
      Event.build ∉ (Enforce c σ).trace ∧ Event.execute ∉ (Enforce c σ).trace := by
  have hi := enforce_invalid c p (enforceAll c pre σ).conventional hp hd hv
  have hne : (enforce c p (enforceAll c pre σ).conventional).out ≠ Outcome.returned none := by
    rw [hi]; simp
  have hs := Enforce_stop c σ pre post p hc hpre hne
  have hq := (enforceAll_pass_quiet c pre σ hpre).1
  have hcalls := enforceAll_calls_pass c pre σ hpre
  have hst := enforceAll_no_stage c pre σ
  have hst2 := enforce_no_stage c p (enforceAll c pre σ).conventional
  have hc2 := enforce_calls c p (enforceAll c pre σ).conventional
  have hout : output (Enforce c σ).trace =
      violationHeader X.printTable p.Type_ ::
        (reportOf c p (enforceAll c pre σ).conventional).Errors.enum.map
          (fun ie => violationLine ie.1 ie.2) := by
    have hv' := output_printViolations (X := X) 0
      (reportOf c p (enforceAll c pre σ).conventional).Errors
    simp only [output] at hq hv' ⊢
    rw [hs, hi]
    simp only [List.filterMap_append, hq, List.nil_append]
    unfold reportOf at hv' ⊢
    rw [hv']
    simp [Event.text, List.enum]
  refine ⟨by rw [hs, hi], ?_, hout, ?_, ?_, ?_, ?_, ?_⟩
  · rw [hs, hi]; rfl
  · rw [hout]; simp
  · intro i hlt
    rw [hout, List.getElem?_cons_succ, enum_map_getElem? _ _ i hlt]
    rfl
  · rw [hs]
    simp only [calls] at hcalls hc2 ⊢
    rw [List.filterMap_append, hcalls, hc2]
  · rw [hs]; simp [hst.1, hst2.1]
  · rw [hs]; simp [hst.2, hst2.2]

/-- Witness of C2: a declaration without `types` and `scopes` on the zero
prototype is reported with two violations. -/
theorem invalid_report_stops_witness :
    output (Enforce (sampleConform [sampleDecl [], sampleDecl []]) sample.zero).trace =
      ["Violation of policy \"conventionalCommit\":\n",
        "\tViolation 0: Invalid type: feat\n", "\tViolation 1: Invalid scope: core\n"] := by
  rw [(invalid_report_stops (sampleConform [sampleDecl [], sampleDecl []]) sample.zero
    [] [sampleDecl []] (sampleDecl []) rfl rfl (by decide) (by decide) (by decide)).2.2.1]
  decide

/-- C9: for a declaration of a registered type whose spec decodes and whose
report is valid, `enforce` returns `nil`, writes nothing, does not call
`os.Exit`, and the loop of `Enforce` goes on with the next declaration. -/
theorem valid_declaration_proceeds {X : Deps} (c : Conform X) (p : PolicyDeclaration X)
    (ps : List (PolicyDeclaration X)) (σ : X.Conventional)
    (hp : policyMap.lookup p.Type_ = some PolicyRef.conventional)
    (hd : (X.Decode p.Spec σ).1 = none)
    (hv : (reportOf c p σ).Valid = true) :
    (enforce c p σ).out = Outcome.returned none ∧
      output (enforce c p σ).trace = [] ∧
      (∀ n, Event.exit n ∉ (enforce c p σ).trace) ∧
      enforceAll c (p :: ps) σ =
        ⟨(enforceAll c ps (X.Decode p.Spec σ).2).out,
          (enforceAll c ps (X.Decode p.Spec σ).2).conventional,
          [Event.call p, Event.lookup p.Type_, Event.lookup p.Type_, Event.decode p.Spec,
            Event.compliance] ++ (enforceAll c ps (X.Decode p.Spec σ).2).trace⟩ := by
  have he := enforce_valid c p σ hp hd hv
  have ho : (enforce c p σ).out = Outcome.returned none := by rw [he]
  have hq := enforce_pass_quiet c p σ ho
  refine ⟨ho, hq.1, hq.2, ?_⟩
  rw [enforceAll_cons_pass c p ps σ ho, he]

/-- Witness of C9: a compliant declaration followed by an unregistered one;
the loop reaches the second. -/
theorem valid_declaration_proceeds_witness :
    (enforceAll (sampleConform [])
      [sampleDecl [("types", ["feat"]), ("scopes", ["core"])], ⟨"version", SampleSpec.map []⟩]
      sample.zero).out = Outcome.returned (some "Policy \"version\" is not defined") := by
  rw [(valid_declaration_proceeds (sampleConform [])
    (sampleDecl [("types", ["feat"]), ("scopes", ["core"])]) [⟨"version", SampleSpec.map []⟩]
    sample.zero (by decide) (by decide) (by decide)).2.2.2]
  decide

/-- C8: for an invalid report the text written by `enforce` is the header
line `Violation of policy "<type>":`, which determines the declared type and
holds no other line break, followed by one line per violation, the `i`-th
(from 0) being a tab, `Violation <i>: <message>` with the `i`-th error of the
report, and a line break; a message without a line break gives a single
line. -/
theorem violation_text_format {X : Deps} (c : Conform X) (p : PolicyDeclaration X)
    (σ : X.Conventional)
    (hp : policyMap.lookup p.Type_ = some PolicyRef.conventional)
    (hd : (X.Decode p.Spec σ).1 = none)
    (hv : (reportOf c p σ).Valid = false) :
    output (enforce c p σ).trace =
        ("Violation of policy " ++ quote X.printTable p.Type_ ++ ":\n") ::
          (reportOf c p σ).Errors.enum.map
            (fun ie => "\tViolation " ++ Nat.repr ie.1 ++ ": " ++ ie.2 ++ "\n") ∧
      (∀ (i : Nat) (hi : i < (reportOf c p σ).Errors.length),
        (output (enforce c p σ).trace)[i + 1]? =
          some ("\tViolation " ++ Nat.repr i ++ ": " ++
            (reportOf c p σ).Errors.get ⟨i, hi⟩ ++ "\n")) ∧
      (output (enforce c p σ).trace).length = (reportOf c p σ).Errors.length + 1 ∧
      (∀ t : String, quote X.printTable t = quote X.printTable p.Type_ → t = p.Type_) ∧
      '\n' ∉ ("Violation of policy " ++ quote X.printTable p.Type_ ++ ":").data ∧
      (∀ (i : Nat) (e : String), '\n' ∉ e.data →
        '\n' ∉ ("\tViolation " ++ Nat.repr i ++ ": " ++ e).data) := by
  have hi := enforce_invalid c p σ hp hd hv
  have hout : output (enforce c p σ).trace =
      ("Violation of policy " ++ quote X.printTable p.Type_ ++ ":\n") ::
        (reportOf c p σ).Errors.enum.map
          (fun ie => "\tViolation " ++ Nat.repr ie.1 ++ ": " ++ ie.2 ++ "\n") := by
    have hv' := output_printViolations (X := X) 0 (reportOf c p σ).Errors
    simp only [output] at hv' ⊢
    rw [hi]
    unfold reportOf at hv' ⊢
    simp only [List.filterMap_append, hv']
    simp [Event.text, List.enum, violationHeader, violationLine]
  refine ⟨hout, ?_, ?_, fun t ht => quote_injective X.printTable t p.Type_ ht, ?_, ?_⟩
  · intro i hlt
    rw [hout, List.getElem?_cons_succ, enum_map_getElem? _ _ i hlt]
    rfl
  · rw [hout]; simp
  · have hq := quote_no_newline X.printTable p.Type_
    simp only [String.data_append, List.mem_append, not_or]
    exact ⟨⟨by decide, hq⟩, by decide⟩
  · intro i e he
    have hr := repr_no_newline i
    simp only [String.data_append, List.mem_append, not_or]
    exact ⟨⟨⟨by decide, hr⟩, by decide⟩, he⟩

/-- Witness of C8: the text written for a declaration without `types` and
`scopes` on the zero prototype. -/
theorem violation_text_format_witness :
    output (enforce (sampleConform []) (sampleDecl []) sample.zero).trace =
      ["Violation of policy \"conventionalCommit\":\n",
        "\tViolation 0: Invalid type: feat\n", "\tViolation 1: Invalid scope: core\n"] := by
  rw [(violation_text_format (sampleConform []) (sampleDecl []) sample.zero
    (by decide) (by decide) (by decide)).1]
  decide

/-! ### Passing declarations -/

theorem lookup_cases (t : String) :
    policyMap.lookup t = none ∨ policyMap.lookup t = some PolicyRef.conventional := by
  by_cases h : t = "conventionalCommit"
  · exact Or.inr ((lookup_some_iff t).2 h)
  · exact Or.inl ((lookup_none_iff t).2 h)

theorem enforce_out_none_iff {X : Deps} (c : Conform X) (p : PolicyDeclaration X)
    (σ : X.Conventional) :
    (enforce c p σ).out = Outcome.returned none ↔ passes c p σ = true := by
  rcases lookup_cases p.Type_ with hl | hl
  · rw [enforce_unknown c p σ hl]
    simp [passes, hl]
  · rcases hd : (X.Decode p.Spec σ).1 with _ | err
    · rcases hv : (reportOf c p σ).Valid with _ | _
      · rw [enforce_invalid c p σ hl hd hv]
        simp [passes, hl, hd, hv]
      · rw [enforce_valid c p σ hl hd hv]
        simp [passes, hl, hd, hv]
    · rw [enforce_decode_error c p σ err hl hd]
      simp [passes, hl, hd]

theorem enforce_conventional_pass {X : Deps} (c : Conform X) (p : PolicyDeclaration X)
    (σ : X.Conventional) (h : passes c p σ = true) :
    (enforce c p σ).conventional = (X.Decode p.Spec σ).2 := by
  simp only [passes, Bool.and_eq_true, Option.isSome_iff_exists, Option.isNone_iff_eq_none]
    at h
  obtain ⟨⟨⟨r, hr⟩, hd⟩, hv⟩ := h
  cases r
  rw [enforce_valid c p σ hr hd hv]

theorem enforceAll_out_none_iff {X : Deps} (c : Conform X) (ps : List (PolicyDeclaration X))
    (σ : X.Conventional) :
    (enforceAll c ps σ).out = Outcome.returned none ↔ allPass c ps σ = true := by
  induction ps generalizing σ with
  | nil => simp [enforceAll, allPass]
  | cons q qs ih =>
    by_cases hq : (enforce c q σ).out = Outcome.returned none
    · have hpq := (enforce_out_none_iff c q σ).1 hq
      rw [enforceAll_cons_pass c q qs σ hq]
      simp only [allPass, hpq, Bool.true_and]
      rw [← enforce_conventional_pass c q σ hpq]
      exact ih _
    · rw [enforceAll_cons_stop c q qs σ hq]
      have hpq : passes c q σ = false := by
        rcases hb : passes c q σ with _ | _
        · rfl
        · exact absurd ((enforce_out_none_iff c q σ).2 hb) hq
      simp [allPass, hpq, hq]

/-! ### The stages of `Enforce` -/

theorem Enforce_pass {X : Deps} (c : Conform X) (σ : X.Conventional)
    (h : (enforceAll c c.Policies σ).out = Outcome.returned none) :
    Enforce c σ =
      ⟨(buildThenExecute c (enforceAll c c.Policies σ).conventional).out,
        (enforceAll c c.Policies σ).conventional,
        (enforceAll c c.Policies σ).trace ++
          (buildThenExecute c (enforceAll c c.Policies σ).conventional).trace⟩ := by
  unfold Enforce buildThenExecute
  simp only [h]
  split <;> rfl

theorem Enforce_fail {X : Deps} (c : Conform X) (σ : X.Conventional)
    (h : (enforceAll c c.Policies σ).out ≠ Outcome.returned none) :
    Enforce c σ = enforceAll c c.Policies σ := by
  unfold Enforce
  dsimp only
  split
  · next h' => exact absurd h' h
  · rfl

theorem first_failure {X : Deps} (c : Conform X) (ps : List (PolicyDeclaration X))
    (σ : X.Conventional) :
    allPass c ps σ = true ∨
      ∃ pre p post, ps = pre ++ p :: post ∧ allPass c pre σ = true ∧
        passes c p (enforceAll c pre σ).conventional = false := by
  induction ps generalizing σ with
  | nil => exact Or.inl rfl
  | cons q qs ih =>
    rcases hq : passes c q σ with _ | _
    · exact Or.inr ⟨[], q, qs, rfl, rfl, by simpa [enforceAll] using hq⟩
    · have ho := (enforce_out_none_iff c q σ).2 hq
      rcases ih (X.Decode q.Spec σ).2 with h | ⟨pre, p, post, h1, h2, h3⟩
      · exact Or.inl (by simp [allPass, hq, h])
      · refine Or.inr ⟨q :: pre, p, post, by simp [h1], by simp [allPass, hq, h2], ?_⟩
        rw [enforceAll_cons_pass c q pre σ ho]
        simp only
        rw [enforce_conventional_pass c q σ hq]
        exact h3

/-- C3: the events of the policy loop hold no call of `Pipeline.Build` or
`Script.Execute`; if some declaration does not pass, `Enforce` ends as the
loop ended; if all pass, `Build` is called next, and `Execute` is called after
it exactly when `Build` returned `nil`.  So `Build` is called iff every
declaration passed, and `Execute` iff moreover `Build` returned `nil`. -/
theorem stages_in_order {X : Deps} (c : Conform X) (σ : X.Conventional) :
    (Event.build ∉ (enforceAll c c.Policies σ).trace ∧
        Event.execute ∉ (enforceAll c c.Policies σ).trace) ∧
      (allPass c c.Policies σ = false → Enforce c σ = enforceAll c c.Policies σ) ∧
      (allPass c c.Policies σ = true →
        ∀ err, X.Build c.Pipeline c.Metadata c.Stages c.Tasks = some err →
          Enforce c σ = ⟨Outcome.returned (some err), (enforceAll c c.Policies σ).conventional,
            (enforceAll c c.Policies σ).trace ++ [Event.build]⟩) ∧
      (allPass c c.Policies σ = true →
        X.Build c.Pipeline c.Metadata c.Stages c.Tasks = none →
          Enforce c σ = ⟨Outcome.returned (X.Execute c.Script c.Metadata),
            (enforceAll c c.Policies σ).conventional,
            (enforceAll c c.Policies σ).trace ++ [Event.build, Event.execute]⟩) ∧
      (Event.build ∈ (Enforce c σ).trace ↔ allPass c c.Policies σ = true) ∧
      (Event.execute ∈ (Enforce c σ).trace ↔
        allPass c c.Policies σ = true ∧
          X.Build c.Pipeline c.Metadata c.Stages c.Tasks = none) := by
  have hst := enforceAll_no_stage c c.Policies σ
  have hiff := enforceAll_out_none_iff c c.Policies σ
  have hfail : allPass c c.Policies σ = false → Enforce c σ = enforceAll c c.Policies σ := by
    intro h
    apply Enforce_fail
    intro ho
    rw [hiff.1 ho] at h
    exact Bool.noConfusion h
  have hb : allPass c c.Policies σ = true →
      ∀ err, X.Build c.Pipeline c.Metadata c.Stages c.Tasks = some err →
        Enforce c σ = ⟨Outcome.returned (some err), (enforceAll c c.Policies σ).conventional,
          (enforceAll c c.Policies σ).trace ++ [Event.build]⟩ := by
    intro h err he
    rw [Enforce_pass c σ (hiff.2 h)]
    simp [buildThenExecute, he]
  have hx : allPass c c.Policies σ = true →
      X.Build c.Pipeline c.Metadata c.Stages c.Tasks = none →
        Enforce c σ = ⟨Outcome.returned (X.Execute c.Script c.Metadata),
          (enforceAll c c.Policies σ).conventional,
          (enforceAll c c.Policies σ).trace ++ [Event.build, Event.execute]⟩ := by
    intro h he
    rw [Enforce_pass c σ (hiff.2 h)]
    simp [buildThenExecute, he]
  refine ⟨hst, hfail, hb, hx, ?_, ?_⟩
  · rcases ha : allPass c c.Policies σ with _ | _
    · rw [hfail ha]; simp [hst.1]
    · rcases he : X.Build c.Pipeline c.Metadata c.Stages c.Tasks with _ | err
      · rw [hx ha he]; simp
      · rw [hb ha err he]; simp
  · rcases ha : allPass c c.Policies σ with _ | _
    · rw [hfail ha]; simp [hst.2]
    · rcases he : X.Build c.Pipeline c.Metadata c.Stages c.Tasks with _ | err
      · rw [hx ha he]; simp
      · rw [hb ha err he]; simp [hst.2]

/-- C4: `Enforce` returns `nil` if and only if every declaration passes (its
type is registered, its spec decodes, its report is valid), `Pipeline.Build`
returns `nil` and `Script.Execute` returns `nil`; otherwise it returns a
non-nil error or the process exits with status 1. -/
theorem Enforce_nil_iff {X : Deps} (c : Conform X) (σ : X.Conventional) :
    ((Enforce c σ).out = Outcome.returned none ↔
        allPass c c.Policies σ = true ∧
          X.Build c.Pipeline c.Metadata c.Stages c.Tasks = none ∧
          X.Execute c.Script c.Metadata = none) ∧
      ((Enforce c σ).out = Outcome.returned none ∨
        (∃ err, (Enforce c σ).out = Outcome.returned (some err)) ∨
        (Enforce c σ).out = Outcome.exited 1) := by
  have hiff := enforceAll_out_none_iff c c.Policies σ
  rcases ha : allPass c c.Policies σ with _ | _
  · have hne : (enforceAll c c.Policies σ).out ≠ Outcome.returned none := by
      intro ho
      rw [hiff.1 ho] at ha
      exact Bool.noConfusion ha
    rw [Enforce_fail c σ hne]
    refine ⟨by simp [hne], ?_⟩
    rcases first_failure c c.Policies σ with h | ⟨pre, p, post, h1, h2, h3⟩
    · rw [h] at ha; exact Bool.noConfusion ha
    · have hpre := (enforceAll_out_none_iff c pre σ).2 h2
      have hp : (enforce c p (enforceAll c pre σ).conventional).out ≠ Outcome.returned none := by
        intro ho
        rw [(enforce_out_none_iff c p _).1 ho] at h3
        exact Bool.noConfusion h3
      rw [h1, enforceAll_append c pre (p :: post) σ hpre, enforceAll_cons_stop c p post _ hp]
      exact enforce_out_cases c p _
  · rw [Enforce_pass c σ (hiff.2 ha)]
    rcases he : X.Build c.Pipeline c.Metadata c.Stages c.Tasks with _ | err
    · rcases hx : X.Execute c.Script c.Metadata with _ | err
      · simp [buildThenExecute, he, hx]
      · simp [buildThenExecute, he, hx]
    · simp [buildThenExecute, he]

/-- C5: the declarations that `Enforce` hands to `enforce` are, in list order,
a prefix of `c.Policies`: the whole list if every declaration passes, and
otherwise the declarations up to and including the first one that does not
pass. -/
theorem processed_declarations {X : Deps} (c : Conform X) (σ : X.Conventional) :
    calls (Enforce c σ).trace <+: c.Policies ∧
      ((allPass c c.Policies σ = true ∧ calls (Enforce c σ).trace = c.Policies) ∨
        (∃ pre p post, c.Policies = pre ++ p :: post ∧ allPass c pre σ = true ∧
          passes c p (enforceAll c pre σ).conventional = false ∧
          calls (Enforce c σ).trace = pre ++ [p])) := by
  have key : (allPass c c.Policies σ = true ∧ calls (Enforce c σ).trace = c.Policies) ∨
      (∃ pre p post, c.Policies = pre ++ p :: post ∧ allPass c pre σ = true ∧
        passes c p (enforceAll c pre σ).conventional = false ∧
        calls (Enforce c σ).trace = pre ++ [p]) := by
    rcases first_failure c c.Policies σ with h | ⟨pre, p, post, h1, h2, h3⟩
    · left
      have ho := (enforceAll_out_none_iff c c.Policies σ).2 h
      refine ⟨h, ?_⟩
      have hcalls := enforceAll_calls_pass c c.Policies σ ho
      rw [Enforce_pass c σ ho]
      simp only [calls] at hcalls ⊢
      rw [List.filterMap_append, hcalls]
      unfold buildThenExecute
      split <;> simp [Event.callee]
    · right
      refine ⟨pre, p, post, h1, h2, h3, ?_⟩
      have hpre := (enforceAll_out_none_iff c pre σ).2 h2
      have hp : (enforce c p (enforceAll c pre σ).conventional).out ≠ Outcome.returned none := by
        intro ho
        rw [(enforce_out_none_iff c p _).1 ho] at h3
        exact Bool.noConfusion h3
      rw [Enforce_stop c σ pre post p h1 hpre hp]
      have hcalls := enforceAll_calls_pass c pre σ hpre
      have hc2 := enforce_calls c p (enforceAll c pre σ).conventional
      simp only [calls] at hcalls hc2 ⊢
      rw [List.filterMap_append, hcalls, hc2]
  refine ⟨?_, key⟩
  rcases key with ⟨_, h⟩ | ⟨pre, p, post, h1, _, _, h4⟩
  · rw [h]
  · rw [h4, h1]
    exact ⟨post, by simp⟩

/-- C10: with an empty list of policies `Enforce` is `Pipeline.Build`
followed, if the build succeeds, by `Script.Execute`: it looks up no policy,
writes nothing, returns the error of `Build` unchanged if there is one and
the result of `Execute` otherwise, hence `nil` when both return `nil`. -/
theorem empty_policies_build_execute {X : Deps} (c : Conform X) (σ : X.Conventional)
    (hc : c.Policies = []) :
    Enforce c σ = buildThenExecute c σ ∧
      (∀ t, Event.lookup t ∉ (Enforce c σ).trace) ∧
      calls (Enforce c σ).trace = [] ∧
      output (Enforce c σ).trace = [] ∧
      (∀ err, X.Build c.Pipeline c.Metadata c.Stages c.Tasks = some err →
        (Enforce c σ).out = Outcome.returned (some err) ∧ (Enforce c σ).trace = [Event.build]) ∧
      (X.Build c.Pipeline c.Metadata c.Stages c.Tasks = none →
        (Enforce c σ).out = Outcome.returned (X.Execute c.Script c.Metadata) ∧
          (Enforce c σ).trace = [Event.build, Event.execute]) ∧
      (X.Build c.Pipeline c.Metadata c.Stages c.Tasks = none →
        X.Execute c.Script c.Metadata = none → (Enforce c σ).out = Outcome.returned none) := by
  have h : Enforce c σ = buildThenExecute c σ := by
    unfold Enforce buildThenExecute
    rw [hc]
    simp only [enforceAll]
    split <;> simp
  rw [h]
  unfold buildThenExecute
  rcases he : X.Build c.Pipeline c.Metadata c.Stages c.Tasks with _ | err
  · simp [calls, output, Event.callee, Event.text]
  · simp [calls, output, Event.callee, Event.text]

/-- Witness of C10: no policies, a pipeline that resolves, two script steps
that succeed. -/
theorem empty_policies_build_execute_witness :
    Enforce (sampleConform []) sample.zero =
      ⟨Outcome.returned none, sample.zero, [Event.build, Event.execute]⟩ := by
  rw [(empty_policies_build_execute (sampleConform []) sample.zero rfl).1]
  rfl

/-! ### Decode errors and the shared prototype -/

/-- C7 as stated fails: the sample decoder, like `mapstructure.Decode` on a
scalar, reports `'' expected a map, got 'string'`; `enforce` returns this
error as it is, and the declared type `conventionalCommit` does not occur in
its message. -/
theorem decode_error_names_type_counterexample :
    policyMap.lookup "conventionalCommit" = some PolicyRef.conventional ∧
      (sample.Decode (SampleSpec.str "feat") sample.zero).1 =
        some "'' expected a map, got 'string'" ∧
      (enforce (sampleConform []) ⟨"conventionalCommit", SampleSpec.str "feat"⟩
        sample.zero).out = Outcome.returned (some "'' expected a map, got 'string'") ∧
      ¬ ("conventionalCommit".data <:+: "'' expected a map, got 'string'".data) := by
  decide

/-- C7, amended: when the declarations before `p` pass, the type of `p` is
registered and `mapstructure.Decode` fails with `err`, `Enforce` returns
exactly `err`, unchanged; the run ends with the decoding of `p`, so
`Compliance` is not evaluated for `p`, no later declaration is entered, and
neither `Pipeline.Build` nor `Script.Execute` is called. -/
theorem decode_error_returned {X : Deps} (c : Conform X) (σ : X.Conventional)
    (pre post : List (PolicyDeclaration X)) (p : PolicyDeclaration X) (err : String)
    (hc : c.Policies = pre ++ p :: post)
    (hpre : (enforceAll c pre σ).out = Outcome.returned none)
    (hp : policyMap.lookup p.Type_ = some PolicyRef.conventional)
    (hd : (X.Decode p.Spec (enforceAll c pre σ).conventional).1 = some err) :
    Enforce c σ =
        ⟨Outcome.returned (some err), (X.Decode p.Spec (enforceAll c pre σ).conventional).2,
          (enforceAll c pre σ).trace ++
            [Event.call p, Event.lookup p.Type_, Event.lookup p.Type_, Event.decode p.Spec]⟩ ∧
      Event.compliance ∉ (enforce c p (enforceAll c pre σ).conventional).trace ∧
      calls (Enforce c σ).trace = pre ++ [p] ∧
      Event.build ∉ (Enforce c σ).trace ∧ Event.execute ∉ (Enforce c σ).trace := by
  have he := enforce_decode_error c p (enforceAll c pre σ).conventional err hp hd
  have hs := Enforce_stop c σ pre post p hc hpre (by rw [he]; simp)
  have hcalls := enforceAll_calls_pass c pre σ hpre
  have hst := enforceAll_no_stage c pre σ
  simp only [calls] at hcalls
  rw [he] at hs
  refine ⟨hs, by rw [he]; simp, ?_, ?_, ?_⟩
  · rw [hs]; simp [calls, List.filterMap_append, hcalls, Event.callee]
  · rw [hs]; simp [hst.1]
  · rw [hs]; simp [hst.2]

/-- Witness of C7, amended: a scalar spec after a declaration that passes. -/
theorem decode_error_returned_witness :
    (Enforce (sampleConform [sampleDecl [("types", ["feat"]), ("scopes", ["core"])],
        ⟨"conventionalCommit", SampleSpec.str "feat"⟩, sampleDecl []]) sample.zero).out =
      Outcome.returned (some "'' expected a map, got 'string'") := by
  rw [(decode_error_returned
    (sampleConform [sampleDecl [("types", ["feat"]), ("scopes", ["core"])],
        ⟨"conventionalCommit", SampleSpec.str "feat"⟩, sampleDecl []]) sample.zero
    [sampleDecl [("types", ["feat"]), ("scopes", ["core"])]] [sampleDecl []]
    ⟨"conventionalCommit", SampleSpec.str "feat"⟩ "'' expected a map, got 'string'"
    rfl (by decide) (by decide) (by decide)).1]

/-- C6 as stated fails: `enforce` decodes into the prototype that `policyMap`
holds.  After a declaration with `types` and `scopes` the prototype is no
longer the zero value; and a declaration with an empty spec, which is
reported as a violation on the zero prototype, passes after that declaration,
so that `Enforce` exits with status 1 on the one list and returns `nil` on the
other. -/
theorem shared_prototype_counterexample :
    (enforce (sampleConform []) (sampleDecl [("types", ["feat"]), ("scopes", ["core"])])
        sample.zero).conventional ≠ sample.zero ∧
      (enforce (sampleConform []) (sampleDecl []) sample.zero).out = Outcome.exited 1 ∧
      (enforce (sampleConform []) (sampleDecl [])
        (enforce (sampleConform []) (sampleDecl [("types", ["feat"]), ("scopes", ["core"])])
          sample.zero).conventional).out = Outcome.returned none ∧
      (Enforce (sampleConform [sampleDecl []]) sample.zero).out = Outcome.exited 1 ∧
      (Enforce (sampleConform [sampleDecl [("types", ["feat"]), ("scopes", ["core"])],
        sampleDecl []]) sample.zero).out = Outcome.returned none := by
  decide

/-- C6, amended: `enforce` decodes the spec into the prototype that
`policyMap` holds for the type (no fresh instance is made): for a registered
type the prototype is afterwards what `mapstructure.Decode` left, for an
unregistered type it is untouched.  The run of `enforce` on a declaration is
determined by the declaration, the Metadata, the Pipeline, the Tasks and the
value of the prototype before the call.  If decoding the spec gives the same
result on every value of the prototype, then `enforce` has the same outcome
and the same trace on every value of the prototype, and so after any two
lists of declarations enforced earlier. -/
theorem enforce_depends_on_prototype {X : Deps} (c₁ c₂ : Conform X)
    (p : PolicyDeclaration X) (σ : X.Conventional)
    (hm : c₁.Metadata = c₂.Metadata) (hl : c₁.Pipeline = c₂.Pipeline)
    (ht : c₁.Tasks = c₂.Tasks) :
    enforce c₁ p σ = enforce c₂ p σ ∧
      (policyMap.lookup p.Type_ = none → (enforce c₁ p σ).conventional = σ) ∧
      (policyMap.lookup p.Type_ = some PolicyRef.conventional →
        (enforce c₁ p σ).conventional = (X.Decode p.Spec σ).2) ∧
      ((∀ σ', X.Decode p.Spec σ' = X.Decode p.Spec σ) →
        (∀ σ', (enforce c₁ p σ').out = (enforce c₁ p σ).out ∧
          (enforce c₁ p σ').trace = (enforce c₁ p σ).trace) ∧
        (∀ (pre₁ pre₂ : List (PolicyDeclaration X)) (σ₁ σ₂ : X.Conventional),
          (enforce c₁ p (enforceAll c₁ pre₁ σ₁).conventional).out =
              (enforce c₁ p (enforceAll c₁ pre₂ σ₂).conventional).out ∧
            (enforce c₁ p (enforceAll c₁ pre₁ σ₁).conventional).trace =
              (enforce c₁ p (enforceAll c₁ pre₂ σ₂).conventional).trace)) := by
  have key : (∀ σ', X.Decode p.Spec σ' = X.Decode p.Spec σ) →
      ∀ σ', (enforce c₁ p σ').out = (enforce c₁ p σ).out ∧
        (enforce c₁ p σ').trace = (enforce c₁ p σ).trace := by
    intro h σ'
    unfold enforce
    rw [h σ']
    split
    · exact ⟨rfl, rfl⟩
    · rcases X.Decode p.Spec σ with ⟨_ | e, σ₁⟩
      · dsimp only
        split <;> exact ⟨rfl, rfl⟩
      · exact ⟨rfl, rfl⟩
  refine ⟨?_, ?_, ?_, fun h => ⟨key h, ?_⟩⟩
  · unfold enforce
    rw [hm, hl, ht]
  · intro h
    rw [enforce_unknown c₁ p σ h]
  · intro h
    unfold enforce
    rw [h]
    dsimp only
    rcases X.Decode p.Spec σ with ⟨_ | e, σ₁⟩
    · dsimp only
      split <;> rfl
    · rfl
  · intro pre₁ pre₂ σ₁ σ₂
    have h1 := key h (enforceAll c₁ pre₁ σ₁).conventional
    have h2 := key h (enforceAll c₁ pre₂ σ₂).conventional
    exact ⟨h1.1.trans h2.1.symm, h1.2.trans h2.2.symm⟩

/-- Witness of C6, amended: a declaration that sets `types` and `scopes`, on a
prototype that already holds other values.  The run is the same in a
configuration with other policies, stages and script; the prototype is
afterwards what the decoder wrote; and since this spec overwrites both
fields, the outcome on the zero prototype and after an earlier declaration is
the same. -/
theorem enforce_depends_on_prototype_witness :
    enforce (sampleConform []) (sampleDecl [("types", ["feat"]), ("scopes", ["core"])])
        ⟨["fix"], ["docs"]⟩ =
      enforce sampleOther (sampleDecl [("types", ["feat"]), ("scopes", ["core"])])
        ⟨["fix"], ["docs"]⟩ ∧
    (enforce (sampleConform []) (sampleDecl [("types", ["feat"]), ("scopes", ["core"])])
        ⟨["fix"], ["docs"]⟩).conventional = ⟨["feat"], ["core"]⟩ ∧
    (enforce (sampleConform []) (sampleDecl [("types", ["feat"]), ("scopes", ["core"])])
        sample.zero).out =
      (enforce (sampleConform []) (sampleDecl [("types", ["feat"]), ("scopes", ["core"])])
        ⟨["fix"], ["docs"]⟩).out ∧
    (enforce (sampleConform []) (sampleDecl [("types", ["feat"]), ("scopes", ["core"])])
        (enforceAll (sampleConform []) [sampleDecl [("types", ["feat", "fix"]),
          ("scopes", ["core", "docs"])]] sample.zero).conventional).out =
      (enforce (sampleConform []) (sampleDecl [("types", ["feat"]), ("scopes", ["core"])])
        (enforceAll (sampleConform []) [] sample.zero).conventional).out :=
  ⟨(enforce_depends_on_prototype (sampleConform []) sampleOther
      (sampleDecl [("types", ["feat"]), ("scopes", ["core"])]) ⟨["fix"], ["docs"]⟩
      rfl rfl rfl).1,
    (enforce_depends_on_prototype (sampleConform []) sampleOther
      (sampleDecl [("types", ["feat"]), ("scopes", ["core"])]) ⟨["fix"], ["docs"]⟩
      rfl rfl rfl).2.2.1 (by decide),
    (((enforce_depends_on_prototype (sampleConform []) sampleOther
      (sampleDecl [("types", ["feat"]), ("scopes", ["core"])]) ⟨["fix"], ["docs"]⟩
      rfl rfl rfl).2.2.2 (fun _ => rfl)).1 sample.zero).1,
    (((enforce_depends_on_prototype (sampleConform []) sampleOther
      (sampleDecl [("types", ["feat"]), ("scopes", ["core"])]) ⟨["fix"], ["docs"]⟩
      rfl rfl rfl).2.2.2 (fun _ => rfl)).2
      [sampleDecl [("types", ["feat", "fix"]), ("scopes", ["core", "docs"])]] []
      sample.zero sample.zero).1⟩

end conform
